import Mathlib

/-!
# Verification of the incremental chat-analysis pipeline

A shallow embedding, in Lean 4, of the core logic of the
`instinto-academy-analyzer` repository:

* change detection (`needs_reanalysis` in `src/analyze_chats.py`),
* the batch orchestrator of `main` in `src/analyze_chats.py`
  (candidate selection, per-run cap, record persistence),
* the rate-limited retry loop (`GroqClient.chat`),
* the LLM-response parser (`parse_llm_response`) together with a small
  executable JSON decoder standing in for Python's `json.loads`,
* construction of the per-chat result record with its field defaults,
* the per-manager score aggregation of `src/send_reports.py`,
  `src/send_weekly_report.py` and `src/learning_bot.py`, and
* the weakest-skill ranking of `src/shared/report_formatter.py`.

Python `float` values are modelled as rationals (`Rat`); machine floats
only carry small decimal score values here, for which the two agree on
every computation performed below.  External effects (HTTP, Sheets,
time) are modelled by explicit inputs: the scoring call is a function
argument, sheet rows are lists, and the wall clock does not occur in any
verified property.
-/

namespace Academy

/-! ## Character-list utilities

Text is manipulated as `List Char` so that every operation is a plain
structural recursion the kernel can evaluate.  These model the Python
string primitives used by the source (`str.strip`, `str.startswith`,
`str.split("\n")`, `"\n".join`, `str.replace`). -/

/-- The character `{` (written via its code point). -/
def lbrace : Char := Char.ofNat 123

/-- The character `}` (written via its code point). -/
def rbrace : Char := Char.ofNat 125

/-- Python `str.strip` whitespace test (space, tab, newline, CR, FF, VT). -/
def isSpaceChar (c : Char) : Bool :=
  c = ' ' || c = '\t' || c = '\n' || c = '\r' || c = Char.ofNat 11 || c = Char.ofNat 12

/-- Left-strip whitespace: the `lstrip` half of Python `str.strip`. -/
def lstripChars (cs : List Char) : List Char := cs.dropWhile isSpaceChar

/-- Python `str.strip`: drop whitespace from both ends. -/
def stripChars (cs : List Char) : List Char :=
  (lstripChars (lstripChars cs).reverse).reverse

/-- Python `str.startswith` on character lists. -/
def listStartsWith : List Char → List Char → Bool
  | _, [] => true
  | [], _ :: _ => false
  | c :: cs, p :: ps => c = p && listStartsWith cs ps

/-- Python `str.split("\n")` on character lists. -/
def splitNewlines (cs : List Char) : List (List Char) :=
  match cs with
  | [] => [[]]
  | c :: rest =>
    let tail := splitNewlines rest
    if c = '\n' then [] :: tail
    else
      match tail with
      | [] => [[c]]
      | l :: ls => (c :: l) :: ls

/-- Python `"\n".join` on character lists. -/
def joinNewlines : List (List Char) → List Char
  | [] => []
  | [l] => l
  | l :: ls => l ++ '\n' :: joinNewlines ls

/-- Python `str.replace(",", ".")` (single-character pattern). -/
def replaceCommaDot (cs : List Char) : List Char :=
  cs.map (fun c => if c = ',' then '.' else c)

/-! ## JSON values and a decoder for `json.loads`

`parse_llm_response` in `src/analyze_chats.py` relies on Python's
`json.loads`.  We embed JSON values and a strict executable decoder for
them.  Faithfulness notes: the decoder implements the JSON grammar that
`json.loads` accepts in its default strict mode (four whitespace
characters, no leading zeros, mandatory digits around `.` per the JSON
grammar, escape sequences incl. `\uXXXX`, raw control characters in
strings rejected, duplicate object keys kept in order — Python keeps the
*last* one, which is what `jsonGetLast` below looks up).  The Python
extensions `NaN`/`Infinity` and surrogate-pair decoding are not
modelled; no claim depends on them.  Numbers are decoded into `Rat`. -/

inductive Json where
  | null
  | bool (b : Bool)
  | num (q : Rat)
  | str (s : String)
  | arr (elems : List Json)
  | obj (members : List (String × Json))

/-- The backquote character (written via its code point). -/
def backquote : Char := Char.ofNat 96

/-- The triple-fence marker. -/
def fenceMarker : List Char := [backquote, backquote, backquote]

/-- JSON whitespace (exactly the four characters `json.loads` skips). -/
def skipWs (cs : List Char) : List Char :=
  cs.dropWhile (fun c => c = ' ' || c = '\t' || c = '\n' || c = '\r')

/-- Numeric value of a list of decimal digits. -/
def digitsToNat (cs : List Char) : Nat :=
  cs.foldl (fun a c => a * 10 + (c.toNat - 48)) 0

/-- Hexadecimal digit value. -/
def hexVal (c : Char) : Option Nat :=
  if '0' ≤ c ∧ c ≤ '9' then some (c.toNat - 48)
  else if 'a' ≤ c ∧ c ≤ 'f' then some (c.toNat - 87)
  else if 'A' ≤ c ∧ c ≤ 'F' then some (c.toNat - 55)
  else none

/-- Four hexadecimal digits, as used by the `\uXXXX` escape. -/
def parseHex4 : List Char → Option (Nat × List Char)
  | a :: b :: c :: d :: rest =>
    match hexVal a, hexVal b, hexVal c, hexVal d with
    | some x, some y, some z, some w => some (((x * 16 + y) * 16 + z) * 16 + w, rest)
    | _, _, _, _ => none
  | _ => none

/-- Body of a JSON string after the opening quote, up to the closing
quote, with escapes decoded; fails on unterminated strings and on raw
control characters (strict mode).  `fuel` dominates the input length. -/
def jsonStringBody : Nat → List Char → Option (List Char × List Char)
  | 0, _ => none
  | _, [] => none
  | fuel + 1, c :: rest =>
    if c = '"' then some ([], rest)
    else if c = '\\' then
      match rest with
      | [] => none
      | e :: rest2 =>
        if e = '"' then (jsonStringBody fuel rest2).map (fun p => ('"' :: p.1, p.2))
        else if e = '\\' then (jsonStringBody fuel rest2).map (fun p => ('\\' :: p.1, p.2))
        else if e = '/' then (jsonStringBody fuel rest2).map (fun p => ('/' :: p.1, p.2))
        else if e = 'b' then (jsonStringBody fuel rest2).map (fun p => (Char.ofNat 8 :: p.1, p.2))
        else if e = 'f' then (jsonStringBody fuel rest2).map (fun p => (Char.ofNat 12 :: p.1, p.2))
        else if e = 'n' then (jsonStringBody fuel rest2).map (fun p => ('\n' :: p.1, p.2))
        else if e = 'r' then (jsonStringBody fuel rest2).map (fun p => ('\r' :: p.1, p.2))
        else if e = 't' then (jsonStringBody fuel rest2).map (fun p => ('\t' :: p.1, p.2))
        else if e = 'u' then
          match parseHex4 rest2 with
          | some (n, rest3) => (jsonStringBody fuel rest3).map (fun p => (Char.ofNat n :: p.1, p.2))
          | none => none
        else none
    else if c.toNat < 32 then none
    else (jsonStringBody fuel rest).map (fun p => (c :: p.1, p.2))

/-- Signed exponent digits after `e`/`E`. -/
def parseExpDigits (cs : List Char) : Option (Int × List Char) :=
  let sgn : Bool × List Char :=
    match cs with
    | '-' :: t => (true, t)
    | '+' :: t => (false, t)
    | t => (false, t)
  let ds := sgn.2.takeWhile Char.isDigit
  if ds = [] then none
  else
    let n : Int := (digitsToNat ds : Int)
    some (if sgn.1 then -n else n, sgn.2.dropWhile Char.isDigit)

/-- `10 ^ n` as an integer (kernel-reducible power). -/
def ipow10 (n : Nat) : Int := ((10 ^ n : Nat) : Int)

/-- The exact rational `mant · 10 ^ shift`, built with `Rat.divInt` so
that the kernel can evaluate it (the `Rat` field operations are
irreducible). -/
def decimalRat (mant : Int) (shift : Int) : Rat :=
  if 0 ≤ shift then Rat.divInt (mant * ipow10 shift.toNat) 1
  else Rat.divInt mant (ipow10 (-shift).toNat)

/-- A JSON number per the strict grammar: `-? int frac? exp?` with no
leading zeros.  The decoded value is the exact decimal as a rational
(Python parses it as an `int` or binary `float`; the two agree on every
value compared in this development). -/
def parseJsonNumber (cs : List Char) : Option (Rat × List Char) :=
  let sgn : Bool × List Char :=
    match cs with
    | '-' :: t => (true, t)
    | t => (false, t)
  let ip := sgn.2.takeWhile Char.isDigit
  let cs2 := sgn.2.dropWhile Char.isDigit
  if ip = [] then none
  else if 1 < ip.length ∧ ip.head? = some '0' then none
  else
    let fracRes : Option (List Char × List Char) :=
      match cs2 with
      | '.' :: t =>
        let fp := t.takeWhile Char.isDigit
        if fp = [] then none
        else some (fp, t.dropWhile Char.isDigit)
      | t => some ([], t)
    match fracRes with
    | none => none
    | some (fp, cs3) =>
      let expRes : Option (Int × List Char) :=
        match cs3 with
        | c :: t => if c = 'e' ∨ c = 'E' then parseExpDigits t else some (0, c :: t)
        | [] => some (0, [])
      match expRes with
      | none => none
      | some (e, cs4) =>
        let mantN : Int := (digitsToNat (ip ++ fp) : Int)
        let mant : Int := if sgn.1 then -mantN else mantN
        some (decimalRat mant (e - (fp.length : Int)), cs4)

mutual

/-- One JSON value (leading whitespace allowed), returning the rest of
the input.  `fuel` dominates the input length, which suffices because
every recursive step first consumes at least one character. -/
def parseJsonValue : Nat → List Char → Option (Json × List Char)
  | 0, _ => none
  | fuel + 1, cs =>
    match skipWs cs with
    | [] => none
    | c :: rest =>
      if c = lbrace then
        match skipWs rest with
        | [] => none
        | c1 :: rest1 =>
          if c1 = rbrace then some (.obj [], rest1)
          else
            match parseJsonMembers fuel (c1 :: rest1) with
            | some (ms, r) => some (.obj ms, r)
            | none => none
      else if c = '[' then
        match skipWs rest with
        | [] => none
        | c1 :: rest1 =>
          if c1 = ']' then some (.arr [], rest1)
          else
            match parseJsonElems fuel (c1 :: rest1) with
            | some (vs, r) => some (.arr vs, r)
            | none => none
      else if c = '"' then
        match jsonStringBody (rest.length + 1) rest with
        | some (s, r) => some (.str (String.mk s), r)
        | none => none
      else if listStartsWith (c :: rest) ['t', 'r', 'u', 'e'] then
        some (.bool true, (c :: rest).drop 4)
      else if listStartsWith (c :: rest) ['f', 'a', 'l', 's', 'e'] then
        some (.bool false, (c :: rest).drop 5)
      else if listStartsWith (c :: rest) ['n', 'u', 'l', 'l'] then
        some (.null, (c :: rest).drop 4)
      else
        match parseJsonNumber (c :: rest) with
        | some (q, r) => some (.num q, r)
        | none => none

/-- Array elements after `[` (first element known non-`]`). -/
def parseJsonElems : Nat → List Char → Option (List Json × List Char)
  | 0, _ => none
  | fuel + 1, cs =>
    match parseJsonValue fuel cs with
    | none => none
    | some (v, r) =>
      match skipWs r with
      | ',' :: r2 =>
        match parseJsonElems fuel r2 with
        | some (vs, r3) => some (v :: vs, r3)
        | none => none
      | ']' :: r2 => some ([v], r2)
      | _ => none

/-- Object members after `{` (first member known non-`}`). -/
def parseJsonMembers : Nat → List Char → Option (List (String × Json) × List Char)
  | 0, _ => none
  | fuel + 1, cs =>
    match skipWs cs with
    | '"' :: rest =>
      match jsonStringBody (rest.length + 1) rest with
      | some (k, r) =>
        match skipWs r with
        | ':' :: r2 =>
          match parseJsonValue fuel r2 with
          | none => none
          | some (v, r3) =>
            match skipWs r3 with
            | [] => none
            | c :: r4 =>
              if c = ',' then
                match parseJsonMembers fuel r4 with
                | some (ms, r5) => some ((String.mk k, v) :: ms, r5)
                | none => none
              else if c = rbrace then some ([(String.mk k, v)], r4)
              else none
        | _ => none
      | none => none
    | _ => none

end

/-- `json.loads`: decode one JSON document, requiring the whole input to
be consumed up to trailing whitespace. -/
def jsonLoads (cs : List Char) : Option Json :=
  match parseJsonValue (cs.length + 1) cs with
  | some (v, r) => if skipWs r = [] then some v else none
  | none => none

/-! ## `parse_llm_response` (src/analyze_chats.py, lines 189–207) -/

/-- Remove every line whose stripped form starts with a triple fence:
`lines = [l for l in lines if not l.strip().startswith("```")]`. -/
def stripFenceLines (text : List Char) : List Char :=
  joinNewlines
    ((splitNewlines text).filter (fun l => !(listStartsWith (stripChars l) fenceMarker)))

/-- The preprocessing of `parse_llm_response`: strip, then (only when
the stripped text itself starts with a fence) drop all fence lines. -/
def preprocessResponse (response : List Char) : List Char :=
  let text := stripChars response
  if listStartsWith text fenceMarker then stripFenceLines text else text

/-- The span matched by `re.search(r'\x7b[\s\S]*\x7d', text)`: the regex
is greedy, so the (leftmost-longest) match runs from the first `{` that
is followed by some `}` to the **last** `}` of the whole text. -/
def braceSpan (cs : List Char) : Option (List Char) :=
  match cs.findIdx? (· = lbrace), cs.reverse.findIdx? (· = rbrace) with
  | some i, some k =>
    let j := cs.length - 1 - k
    if i < j then some ((cs.drop i).take (j - i + 1)) else none
  | _, _ => none

/-- `parse_llm_response`: strip fences, try a direct `json.loads`, and on
failure decode the greedy `{...}` regex span; `None` when both fail. -/
def parse_llm_response (response : String) : Option Json :=
  let text := preprocessResponse response.data
  match jsonLoads text with
  | some j => some j
  | none =>
    match braceSpan text with
    | some span => jsonLoads span
    | none => none

/-- Depth-counting scan: the shortest prefix of `cs` that closes all
opened braces (called with the text starting at a `{`). -/
def balancedPrefix : Nat → List Char → Option (List Char)
  | _, [] => none
  | depth, c :: rest =>
    if c = rbrace then
      if depth = 1 then some [c]
      else (balancedPrefix (depth - 1) rest).map (fun l => c :: l)
    else if c = lbrace then (balancedPrefix (depth + 1) rest).map (fun l => c :: l)
    else (balancedPrefix depth rest).map (fun l => c :: l)

/-- Modelled from the spec: "scan for the first balanced `{...}` span via
regex/bracket matching" — the bracket-balanced span starting at the first
`{` of the text.  This is the behaviour §4.3 of the spec ascribes to the
fallback; the source's regex is compared against it. -/
def firstBalancedSpan (cs : List Char) : Option (List Char) :=
  match cs.findIdx? (· = lbrace) with
  | some i => balancedPrefix 0 (cs.drop i)
  | none => none

/-- Modelled from the spec: the parser as §4.3 describes it, identical to
`parse_llm_response` except that the fallback decodes the first
*balanced* `{...}` span instead of the greedy regex span. -/
def parse_spec_balanced (response : String) : Option Json :=
  let text := preprocessResponse response.data
  match jsonLoads text with
  | some j => some j
  | none =>
    match firstBalancedSpan text with
    | some span => jsonLoads span
    | none => none

/-! ## `GroqClient.chat` (src/analyze_chats.py, lines 133–171)

The HTTP interaction is modelled by a function from the attempt index to
the outcome of that attempt: a 429 status (carrying the optional
`retry-after` header, which the code only prints), a successful body, or
a `requests.RequestException`.  `chatCall` returns the list of sleep
durations (in seconds, in order) together with the final outcome. -/

inductive ApiResp where
  | rate (retryAfter : Option Nat)
  | ok (content : String)
  | err

inductive ChatResult where
  | ok (content : String)
  | rateLimited
  | unavailable
  deriving DecidableEq

/-- The retry loop, with `remaining` iterations left out of 5 (so the
current 0-based attempt index is `5 - remaining`):

* HTTP 429: sleep `60 * 2 ^ attempt` and continue; the header value is
  never consulted;
* success: return the content;
* `RequestException`: when `attempt < 4`, sleep `10 * (attempt + 1)` and
  continue, else raise `Groq API error` (modelled `unavailable`);
* loop exhausted: raise the attempts-exceeded error (modelled
  `rateLimited`, reachable only via at least one 429). -/
def chatLoop (resps : Nat → ApiResp) : Nat → List Nat × ChatResult
  | 0 => ([], .rateLimited)
  | r + 1 =>
    let attempt := 4 - r
    match resps attempt with
    | .ok s => ([], .ok s)
    | .rate _ =>
      let rest := chatLoop resps r
      ((60 * 2 ^ attempt) :: rest.1, rest.2)
    | .err =>
      if 0 < r then
        let rest := chatLoop resps r
        ((10 * (attempt + 1)) :: rest.1, rest.2)
      else ([], .unavailable)

/-- `GroqClient.chat`: five attempts starting at attempt 0. -/
def chatCall (resps : Nat → ApiResp) : List Nat × ChatResult :=
  chatLoop resps 5

/-! ## Change detection (src/analyze_chats.py, lines 262–303) -/

/-- The per-chat state `load_analyzed_chats` reconstructs from the
`analysis_raw` worksheet (`row_index` is irrelevant to every claim and
omitted). -/
structure PrevAnalysis where
  message_count : Nat
  chat_status : String
  deriving DecidableEq

/-- `needs_reanalysis(chat_id, current_msg_count, current_status,
analyzed)`: the literal decision policy, reasons included (the reason
strings are the source's Russian literals: `"новый"` is "new"). -/
def needs_reanalysis (chat_id : String) (current_msg_count : Nat) (current_status : String)
    (analyzed : String → Option PrevAnalysis) : Bool × String :=
  match analyzed chat_id with
  | none => (true, "новый")
  | some prev =>
    if prev.message_count < current_msg_count then
      (true, "новые сообщения (" ++ toString prev.message_count ++ "→" ++
        toString current_msg_count ++ ")")
    else if current_status ≠ prev.chat_status ∧ current_status ≠ "" then
      (true, "статус изменён (" ++ prev.chat_status ++ "→" ++ current_status ++ ")")
    else (false, "")

/-! ## The analysis batch (src/analyze_chats.py, `main`, lines 339–457)

A conversation snapshot is reduced to the four fields `main` consults:
the id, `len(c["messages"])`, the status (`status` or `outcome`, as
pre-merged by line 344), and the length of the formatted dialog text.
Scoring — `groq.chat` followed by `parse_llm_response` and the
truthiness check on the parse — is abstracted into a function argument
`score` from the snapshot to `Option Unit`: `none` covers an exhausted
retry loop, a parse failure and a falsy parse alike, each of which
increments `errors` and writes nothing. -/

structure ChatItem where
  chat_id : String
  message_count : Nat
  chat_status : String
  dialog_len : Nat
  deriving DecidableEq

/-- The fields of an `AnalysisRecord` that change detection reads back. -/
structure Record where
  chat_id : String
  message_count : Nat
  chat_status : String
  deriving DecidableEq

/-- The record `main` appends for a successfully analyzed item: the
message count and status cached at selection time. -/
def chatItemRecord (c : ChatItem) : Record :=
  ⟨c.chat_id, c.message_count, c.chat_status⟩

/-- `MAX_CHATS_PER_RUN` (line 29). -/
def MAX_CHATS_PER_RUN : Nat := 10

/-- Lines 340–351: keep the chats whose `needs_reanalysis` flag is true,
in snapshot order. -/
def selectChats (chats : List ChatItem) (analyzed : String → Option PrevAnalysis) :
    List ChatItem :=
  chats.filter fun c =>
    (needs_reanalysis c.chat_id c.message_count c.chat_status analyzed).1

/-- Lines 363–366: truncate the candidate list to the per-run cap. -/
def limitChats (l : List ChatItem) (cap : Nat) : List ChatItem :=
  if cap < l.length then l.take cap else l

/-- Lines 377–431, one candidate: skip dialogs under 50 characters
(no record, no error), otherwise score; a successful score yields the
record, any failure yields nothing. -/
def processOne (score : ChatItem → Option Unit) (c : ChatItem) : Option Record :=
  if c.dialog_len < 50 then none
  else
    match score c with
    | some _ => some (chatItemRecord c)
    | none => none

/-- One full batch run: select, cap, score sequentially, collect the
records appended to `analysis_raw`. -/
def runBatch (score : ChatItem → Option Unit) (chats : List ChatItem)
    (analyzed : String → Option PrevAnalysis) (cap : Nat) : List Record :=
  (limitChats (selectChats chats analyzed) cap).filterMap (processOne score)

/-- Line 451: `remaining = total_to_analyze - len(chats_to_analyze)`,
the count the completion notification reports as still to do. -/
def deferredCount (chats : List ChatItem) (analyzed : String → Option PrevAnalysis)
    (cap : Nat) : Nat :=
  (selectChats chats analyzed).length - (limitChats (selectChats chats analyzed) cap).length

/-- `load_analyzed_chats` over the worksheet after `records` have been
appended: rebuilding the dict row by row makes a later row with the same
`chat_id` overwrite an earlier one. -/
def loadAnalyzed (analyzed : String → Option PrevAnalysis) (records : List Record) :
    String → Option PrevAnalysis :=
  fun id =>
    records.foldl
      (fun acc r => if r.chat_id = id then some ⟨r.message_count, r.chat_status⟩ else acc)
      (analyzed id)

/-! ## Result-record construction (src/analyze_chats.py, lines 400–421)

Only the analysis-derived fields are modelled (the chat-metadata fields
`chat_id` … `chat_status` are copied from the snapshot and appear in the
batch model above).  `techniques` and `missed_opportunities` are recorded
before the `json.dumps` serialization, which does not affect the default
values.  A parsed payload whose `"scores"` value is not an object makes
`scores.get(...)` raise `AttributeError`, which the per-candidate handler
turns into an error and no record: hence the `Option`. -/

/-- Python `dict.get` for a decoded JSON object: on duplicate keys
`json.loads` keeps the last binding, so the lookup takes the last
match. -/
def jsonGetLast (kvs : List (String × Json)) (k : String) : Option Json :=
  kvs.foldl (fun acc p => if p.1 = k then some p.2 else acc) none

/-- `d.get(k, default)`. -/
def dictGet (kvs : List (String × Json)) (k : String) (d : Json) : Json :=
  (jsonGetLast kvs k).getD d

/-- The value must be a JSON object to support `.get`. -/
def asObj : Json → Option (List (String × Json))
  | .obj ms => some ms
  | _ => none

structure ParsedAnalysis where
  customer_segment : Json
  overall_score : Json
  greeting_score : Json
  needs_score : Json
  presentation_score : Json
  objection_score : Json
  closing_score : Json
  cross_sell_score : Json
  techniques : Json
  missed_opportunities : Json
  is_ethical : Json
  summary : Json

/-- Lines 400–421: the analysis-derived fields of the result row, with
the literal defaults of each `.get`. -/
def buildAnalysisFields (analysis : List (String × Json)) : Option ParsedAnalysis :=
  match asObj (dictGet analysis "scores" (.obj [])) with
  | none => none
  | some scores =>
    some
      { customer_segment := dictGet analysis "customer_segment" (.str "unknown")
        overall_score := dictGet analysis "overall_score" (.num 0)
        greeting_score := dictGet scores "greeting" (.num 0)
        needs_score := dictGet scores "needs_discovery" (.num 0)
        presentation_score := dictGet scores "presentation" (.num 0)
        objection_score := dictGet scores "objection_handling" (.num 0)
        closing_score := dictGet scores "closing" (.num 0)
        cross_sell_score := dictGet scores "cross_sell" (.num 0)
        techniques := dictGet analysis "techniques_used" (.arr [])
        missed_opportunities := dictGet analysis "missed_opportunities" (.arr [])
        is_ethical := dictGet analysis "is_ethical" (.bool true)
        summary := dictGet analysis "summary" (.str "") }

/-! ## Python `float()` on sheet cells

`get_all_records` hands the aggregators cells that are numbers (when the
sheet client numericised them) or raw strings.  `float()` on a string
accepts an optional sign, decimal digits with an optional point (digits
required on at least one side) and an optional exponent, after stripping
whitespace.  (The `inf`/`nan` spellings and digit-group underscores are
not modelled; no sheet score uses them.) -/

inductive Cell where
  | num (q : Rat)
  | str (s : String)
  deriving DecidableEq

/-- Python truthiness of a cell (`if score:`): zero and the empty string
are falsy. -/
def cellTruthy : Cell → Bool
  | .num q => if q = 0 then false else true
  | .str s => if s = "" then false else true

/-- `float()` applied to the character list of a stripped string. -/
def pyFloatChars (cs : List Char) : Option Rat :=
  let sgn : Bool × List Char :=
    match cs with
    | '-' :: t => (true, t)
    | '+' :: t => (false, t)
    | t => (false, t)
  let ip := sgn.2.takeWhile Char.isDigit
  let cs1 := sgn.2.dropWhile Char.isDigit
  let dotted : List Char × List Char :=
    match cs1 with
    | '.' :: t => (t.takeWhile Char.isDigit, t.dropWhile Char.isDigit)
    | t => ([], t)
  let fp := dotted.1
  let cs2 := dotted.2
  if ip = [] ∧ fp = [] then none
  else
    let expRes : Option (Int × List Char) :=
      match cs2 with
      | c :: t => if c = 'e' ∨ c = 'E' then parseExpDigits t else none
      | [] => some (0, [])
    match expRes with
    | none => none
    | some (e, cs3) =>
      if cs3 = [] then
        let mantN : Int := (digitsToNat (ip ++ fp) : Int)
        some (decimalRat (if sgn.1 then -mantN else mantN) (e - (fp.length : Int)))
      else none

/-- Python `float(s)`. -/
def pyFloatStr (s : String) : Option Rat := pyFloatChars (stripChars s.data)

/-- `float(score)` on a cell value; on a number it is the identity. -/
def floatOfCell : Cell → Option Rat
  | .num q => some q
  | .str s => pyFloatStr s

/-- The score conversion of `send_weekly_report.py` (lines 172–179) and
`learning_bot.py` (lines 136–142): `float(score)`. -/
def scoreFloatWeekly (v : Cell) : Option Rat := floatOfCell v

/-- The score conversion of `send_reports.py` (lines 101–110):
`float(str(score).replace(',', '.'))`.  `str()` of a Python number never
contains a comma and `float(str(x))` round-trips, so on numeric cells
this is the identity. -/
def scoreFloatReports : Cell → Option Rat
  | .num q => some q
  | .str s => pyFloatStr (String.mk (replaceCommaDot s.data))

/-! ## Per-manager aggregation (`aggregate_by_manager`)

Shared shape of `send_reports.py` lines 66–122, `send_weekly_report.py`
lines 137–191 and `learning_bot.py` lines 113–153, parameterised by the
score conversion, which is the only difference between them relevant to
any claim.  `manager_name` and the `missed_opportunities` sampling are
not consulted by any claim and are omitted. -/

/-- The skill columns, in the iteration order of `SKILL_NAMES`
(`src/shared/report_formatter.py` lines 6–13). -/
def SKILL_NAMES : List String :=
  ["greeting_score", "needs_score", "presentation_score",
   "objection_score", "closing_score", "cross_sell_score"]

/-- `defaultdict(list)` append: create the key at first touch (at the
end, preserving insertion order), else extend its list. -/
def appendSkill (skills : List (String × List Rat)) (k : String) (q : Rat) :
    List (String × List Rat) :=
  if skills.any (fun kv => kv.1 = k) then
    skills.map (fun kv => if kv.1 = k then (kv.1, kv.2 ++ [q]) else kv)
  else skills ++ [(k, [q])]

/-- One iteration of the inner score loop: read the cell
(`row.get(skill_key, 0)`), skip falsy values, convert, append on
success and skip silently on conversion failure. -/
def addOneScore (score1 : Cell → Option Rat) (row : String → Option Cell)
    (sk : List (String × List Rat)) (k : String) : List (String × List Rat) :=
  let score := (row k).getD (.num 0)
  if cellTruthy score then
    match score1 score with
    | some q => appendSkill sk k q
    | none => sk
  else sk

/-- The inner score loop for one record, over every skill column. -/
def addRowScores (score1 : Cell → Option Rat) (skills : List (String × List Rat))
    (row : String → Option Cell) : List (String × List Rat) :=
  SKILL_NAMES.foldl (addOneScore score1 row) skills

/-- The skill lists one agent accumulates over its records (the
`m["skills"]` portion of `aggregate_by_manager`, for the rows of a
single `manager_id`). -/
def collectSkills (score1 : Cell → Option Rat) (rows : List (String → Option Cell)) :
    List (String × List Rat) :=
  rows.foldl (fun sk row => addRowScores score1 sk row) []

structure SheetRow where
  manager_id : String
  cells : String → Option Cell

structure AgentAgg where
  chat_count : Nat
  skills : List (String × List Rat)
  deriving DecidableEq

/-- Ordered-map update for the managers dict. -/
def upsertAgg (mgrs : List (String × AgentAgg)) (id : String) (a : AgentAgg) :
    List (String × AgentAgg) :=
  if mgrs.any (fun kv => kv.1 = id) then
    mgrs.map (fun kv => if kv.1 = id then (kv.1, a) else kv)
  else mgrs ++ [(id, a)]

/-- Lookup in the managers dict. -/
def lookupAgg (mgrs : List (String × AgentAgg)) (id : String) : Option AgentAgg :=
  (mgrs.find? (fun kv => kv.1 = id)).map (fun kv => kv.2)

/-- `aggregate_by_manager`: group rows by stripped `manager_id`
(skipping blank ids), counting chats and collecting skill scores. -/
def aggregate_by_manager (score1 : Cell → Option Rat) (data : List SheetRow) :
    List (String × AgentAgg) :=
  data.foldl
    (fun mgrs row =>
      let mid := String.mk (stripChars row.manager_id.data)
      if mid = "" then mgrs
      else
        let cur := (lookupAgg mgrs mid).getD ⟨0, []⟩
        upsertAgg mgrs mid ⟨cur.chat_count + 1, addRowScores score1 cur.skills row.cells⟩)
    []

/-! ## Report formatting (src/shared/report_formatter.py, lines 16–36;
identical copies in send_weekly_report.py lines 194–214) -/

/-- Round-half-even of the integer fraction `a / b` (`b > 0`): the
rounding Python's `round` applies. -/
def roundHalfEvenInt (a b : Int) : Int :=
  let n := Int.fdiv a b
  let r := a - n * b
  if 2 * r < b then n
  else if b < 2 * r then n + 1
  else if n % 2 = 0 then n else n + 1

/-- Python `round(q, 1)`, exactly on rationals.  (Python rounds the
binary double nearest to the mean; the two agree on every value compared
in this development, none of which sits at a representation boundary.) -/
def round1 (q : Rat) : Rat :=
  Rat.divInt (roundHalfEvenInt (q.num * 10) (q.den : Int)) 10

/-- `calculate_skill_averages`: the rounded mean per skill, `0.0` for an
empty score list, in the iteration order of the input. -/
def calculate_skill_averages (skills : List (String × List Rat)) : List (String × Rat) :=
  skills.map fun kv =>
    if kv.2.isEmpty then (kv.1, 0)
    else (kv.1, round1 (kv.2.sum / (kv.2.length : Rat)))

/-- Insert into an ascending list, after every strictly smaller value
and before equal ones met later — the insertion step of a stable
ascending sort. -/
def insertByAvg (x : String × Rat) : List (String × Rat) → List (String × Rat)
  | [] => [x]
  | y :: ys => if y.2 < x.2 then y :: insertByAvg x ys else x :: y :: ys

/-- Python `sorted(·, key=lambda x: x[1])`: a stable ascending sort,
realised as insertion sort. -/
def sortByAvg (l : List (String × Rat)) : List (String × Rat) :=
  l.foldr insertByAvg []

/-- `find_weakest_skills`: drop non-positive averages, sort ascending
(stable), take the first `top_n`. -/
def find_weakest_skills (averages : List (String × Rat)) (top_n : Nat) :
    List (String × Rat) :=
  (sortByAvg (averages.filter fun kv => 0 < kv.2)).take top_n

/-! # Claims -/

/-- **C2**: `needs_reanalysis` applies the decision policy in order: no
prior record → `(true, "новый")` ("new"); else a strictly larger current
message count → true; else a changed, non-empty current status → true;
otherwise — counts not grown and (status unchanged or current status
empty) — `(false, "")`. -/
theorem needs_reanalysis_policy (chat_id : String) (cnt : Nat) (status : String)
    (analyzed : String → Option PrevAnalysis) :
    (analyzed chat_id = none →
      needs_reanalysis chat_id cnt status analyzed = (true, "новый")) ∧
    (∀ prev, analyzed chat_id = some prev →
      ((prev.message_count < cnt →
          (needs_reanalysis chat_id cnt status analyzed).1 = true) ∧
       (¬ prev.message_count < cnt → status ≠ prev.chat_status → status ≠ "" →
          (needs_reanalysis chat_id cnt status analyzed).1 = true) ∧
       (¬ prev.message_count < cnt → (status = prev.chat_status ∨ status = "") →
          needs_reanalysis chat_id cnt status analyzed = (false, "")))) := by
  refine ⟨fun h => by simp [needs_reanalysis, h], fun prev h => ⟨?_, ?_, ?_⟩⟩
  · intro hlt
    simp [needs_reanalysis, h, hlt]
  · intro hle hne hempty
    simp [needs_reanalysis, h, hle, hne, hempty]
  · intro hle hcase
    rcases hcase with heq | hempty
    · simp [needs_reanalysis, h, hle, heq]
    · simp [needs_reanalysis, h, hle, hempty]

/-- Witness for C2: a never-analyzed conversation is flagged
`(true, "новый")`. -/
theorem needs_reanalysis_policy_witness :
    needs_reanalysis "chat-1" 3 "paid" (fun _ => none) = (true, "новый") :=
  (needs_reanalysis_policy "chat-1" 3 "paid" (fun _ => none)).1 rfl

/-- **C3**: the retry policy of `GroqClient.chat`.  Every 429 sleeps
`60·2^attempt` seconds regardless of the response's retry hints (the
statements quantify over arbitrary header values); five consecutive 429s
sleep 60, 120, 240, 480, 960 and fail rate-limited; `k < 5` 429s before
a success sleep `60·2^i` for `i < k` and return the body; other
transient failures back off linearly `10·(attempt+1)`, and five of them
in a row sleep 10, 20, 30, 40 and fail unavailable. -/
theorem chat_retry_policy :
    (∀ resps : Nat → ApiResp, (∀ i, i < 5 → ∃ h, resps i = .rate h) →
      chatCall resps = ([60, 120, 240, 480, 960], .rateLimited)) ∧
    (∀ resps : Nat → ApiResp, (∀ i, i < 5 → resps i = .err) →
      chatCall resps = ([10, 20, 30, 40], .unavailable)) ∧
    (∀ (resps : Nat → ApiResp) (k : Nat) (s : String), k < 5 →
      (∀ i, i < k → ∃ h, resps i = .rate h) → resps k = .ok s →
      chatCall resps = ((List.range k).map (fun i => 60 * 2 ^ i), .ok s)) ∧
    (∀ (resps : Nat → ApiResp) (k : Nat) (s : String), k < 5 →
      (∀ i, i < k → resps i = .err) → resps k = .ok s →
      chatCall resps = ((List.range k).map (fun i => 10 * (i + 1)), .ok s)) := by
  refine ⟨?_, ?_, ?_, ?_⟩
  · intro resps h
    obtain ⟨h0, e0⟩ := h 0 (by norm_num)
    obtain ⟨h1, e1⟩ := h 1 (by norm_num)
    obtain ⟨h2, e2⟩ := h 2 (by norm_num)
    obtain ⟨h3, e3⟩ := h 3 (by norm_num)
    obtain ⟨h4, e4⟩ := h 4 (by norm_num)
    simp [chatCall, chatLoop, e0, e1, e2, e3, e4]
  · intro resps h
    simp [chatCall, chatLoop, h 0 (by norm_num), h 1 (by norm_num), h 2 (by norm_num),
      h 3 (by norm_num), h 4 (by norm_num)]
  · intro resps k s hk h hok
    interval_cases k
    · simp [chatCall, chatLoop, hok]
    · obtain ⟨h0, e0⟩ := h 0 (by norm_num)
      simp [chatCall, chatLoop, e0, hok]
      decide
    · obtain ⟨h0, e0⟩ := h 0 (by norm_num)
      obtain ⟨h1, e1⟩ := h 1 (by norm_num)
      simp [chatCall, chatLoop, e0, e1, hok]
      decide
    · obtain ⟨h0, e0⟩ := h 0 (by norm_num)
      obtain ⟨h1, e1⟩ := h 1 (by norm_num)
      obtain ⟨h2, e2⟩ := h 2 (by norm_num)
      simp [chatCall, chatLoop, e0, e1, e2, hok]
      decide
    · obtain ⟨h0, e0⟩ := h 0 (by norm_num)
      obtain ⟨h1, e1⟩ := h 1 (by norm_num)
      obtain ⟨h2, e2⟩ := h 2 (by norm_num)
      obtain ⟨h3, e3⟩ := h 3 (by norm_num)
      simp [chatCall, chatLoop, e0, e1, e2, e3, hok]
      decide
  · intro resps k s hk h hok
    interval_cases k
    · simp [chatCall, chatLoop, hok]
    · simp [chatCall, chatLoop, h 0 (by norm_num), hok]
      decide
    · simp [chatCall, chatLoop, h 0 (by norm_num), h 1 (by norm_num), hok]
      decide
    · simp [chatCall, chatLoop, h 0 (by norm_num), h 1 (by norm_num), h 2 (by norm_num), hok]
      decide
    · simp [chatCall, chatLoop, h 0 (by norm_num), h 1 (by norm_num), h 2 (by norm_num),
        h 3 (by norm_num), hok]
      decide

/-- Witness for C3: the spec's §8 scenario — three 429s sleep 60, 120,
240 seconds and the fourth attempt succeeds. -/
theorem chat_retry_policy_witness :
    chatCall (fun i => if i < 3 then .rate (some 7) else .ok "body") =
      ([60, 120, 240], .ok "body") := by
  have h := chat_retry_policy.2.2.1 (fun i => if i < 3 then .rate (some 7) else .ok "body")
    3 "body" (by norm_num) (fun i hi => ⟨some 7, by simp [hi]⟩) (by simp)
  simpa using h

/-- **C4 (counterexample)**: text with one decodable JSON object embedded
in prose followed by a stray `}` later in the text.  The claimed
behaviour — decode the *first balanced* `{...}` span — would succeed
(second conjunct), but `parse_llm_response` decodes the greedy regex span
from the first `{` to the *last* `}` and returns `None` (first
conjunct). -/
theorem parse_llm_response_not_first_balanced :
    parse_llm_response "see \x7b\"a\": 1\x7d and later a stray \x7d here" = none ∧
    parse_spec_balanced "see \x7b\"a\": 1\x7d and later a stray \x7d here" =
      some (.obj [("a", .num 1)]) :=
  ⟨rfl, rfl⟩

/-- **C4 (amended)**: `parse_llm_response` never raises (it is a total
function into `Option`); it returns the direct decode of the
fence-stripped text when that succeeds (covering raw JSON and
triple-fenced JSON), and otherwise decodes the greedy span from the
first `{` to the last `}` — not the first balanced span — returning
`None` when that also fails. -/
theorem parse_llm_response_spec (response : String) :
    (∀ j, jsonLoads (preprocessResponse response.data) = some j →
      parse_llm_response response = some j) ∧
    (jsonLoads (preprocessResponse response.data) = none →
      parse_llm_response response =
        (braceSpan (preprocessResponse response.data)).bind jsonLoads) := by
  constructor
  · intro j h
    simp [parse_llm_response, h]
  · intro h
    cases hb : braceSpan (preprocessResponse response.data) <;>
      simp [parse_llm_response, h, hb]

/-- Witness for C4: triple-fenced JSON parses via the direct branch. -/
theorem parse_llm_response_spec_witness :
    parse_llm_response "```json\n\x7b\"a\": 1\x7d\n```" = some (.obj [("a", .num 1)]) :=
  (parse_llm_response_spec "```json\n\x7b\"a\": 1\x7d\n```").1 (.obj [("a", .num 1)]) rfl

/-- **C5**: every field absent from a successfully parsed payload takes
its documented default in the constructed record: scores (overall and
each skill) default to `0`, the two list fields to the empty sequence,
`is_ethical` to `true`, `summary` to `""` and `customer_segment` to
`"unknown"`. -/
theorem analysis_field_defaults (analysis : List (String × Json)) (r : ParsedAnalysis)
    (hr : buildAnalysisFields analysis = some r) :
    (jsonGetLast analysis "overall_score" = none → r.overall_score = .num 0) ∧
    (jsonGetLast analysis "customer_segment" = none → r.customer_segment = .str "unknown") ∧
    (jsonGetLast analysis "techniques_used" = none → r.techniques = .arr []) ∧
    (jsonGetLast analysis "missed_opportunities" = none → r.missed_opportunities = .arr []) ∧
    (jsonGetLast analysis "is_ethical" = none → r.is_ethical = .bool true) ∧
    (jsonGetLast analysis "summary" = none → r.summary = .str "") ∧
    (∀ scores, asObj (dictGet analysis "scores" (.obj [])) = some scores →
      (jsonGetLast scores "greeting" = none → r.greeting_score = .num 0) ∧
      (jsonGetLast scores "needs_discovery" = none → r.needs_score = .num 0) ∧
      (jsonGetLast scores "presentation" = none → r.presentation_score = .num 0) ∧
      (jsonGetLast scores "objection_handling" = none → r.objection_score = .num 0) ∧
      (jsonGetLast scores "closing" = none → r.closing_score = .num 0) ∧
      (jsonGetLast scores "cross_sell" = none → r.cross_sell_score = .num 0)) := by
  unfold buildAnalysisFields at hr
  cases hs : asObj (dictGet analysis "scores" (.obj [])) with
  | none => rw [hs] at hr; exact absurd hr (by simp)
  | some scores0 =>
    rw [hs] at hr
    have hrec := Option.some.inj hr
    subst hrec
    refine ⟨?_, ?_, ?_, ?_, ?_, ?_, ?_⟩
    · intro h; simp [dictGet, h]
    · intro h; simp [dictGet, h]
    · intro h; simp [dictGet, h]
    · intro h; simp [dictGet, h]
    · intro h; simp [dictGet, h]
    · intro h; simp [dictGet, h]
    · intro scores hsc
      have : scores0 = scores := Option.some.inj hsc
      subst this
      exact ⟨fun h => by simp [dictGet, h], fun h => by simp [dictGet, h],
        fun h => by simp [dictGet, h], fun h => by simp [dictGet, h],
        fun h => by simp [dictGet, h], fun h => by simp [dictGet, h]⟩

/-- The fully defaulted record (what an empty parsed object yields). -/
def defaultAnalysisFields : ParsedAnalysis :=
  ⟨.str "unknown", .num 0, .num 0, .num 0, .num 0, .num 0, .num 0, .num 0,
   .arr [], .arr [], .bool true, .str ""⟩

/-- Witness for C5: the empty object takes every default. -/
theorem analysis_field_defaults_witness :
    buildAnalysisFields [] = some defaultAnalysisFields ∧
    defaultAnalysisFields.overall_score = .num 0 ∧
    defaultAnalysisFields.customer_segment = .str "unknown" ∧
    defaultAnalysisFields.techniques = .arr [] ∧
    defaultAnalysisFields.is_ethical = .bool true ∧
    defaultAnalysisFields.greeting_score = .num 0 := by
  have h := analysis_field_defaults [] defaultAnalysisFields rfl
  exact ⟨rfl, h.1 rfl, h.2.1 rfl, h.2.2.1 rfl, h.2.2.2.2.1 rfl,
    ((h.2.2.2.2.2.2 [] rfl).1 rfl)⟩


/-- **C6**: the batch never scores more than `cap` conversations, and
when the eligible candidates exceed the cap the completion summary
reports exactly `eligible − cap` conversations as remaining. -/
theorem batch_cap_and_deferred (score : ChatItem → Option Unit) (chats : List ChatItem)
    (analyzed : String → Option PrevAnalysis) (cap : Nat) :
    (runBatch score chats analyzed cap).length ≤ cap ∧
    (cap < (selectChats chats analyzed).length →
      deferredCount chats analyzed cap = (selectChats chats analyzed).length - cap) ∧
    ((selectChats chats analyzed).length ≤ cap →
      deferredCount chats analyzed cap = 0) := by
  have hlim : (limitChats (selectChats chats analyzed) cap).length ≤ cap ∨
      (limitChats (selectChats chats analyzed) cap).length =
        (selectChats chats analyzed).length := by
    unfold limitChats
    split
    · left; simp [List.length_take]
    · right; rfl
  refine ⟨?_, ?_, ?_⟩
  · have h1 : (runBatch score chats analyzed cap).length ≤
        (limitChats (selectChats chats analyzed) cap).length :=
      List.length_filterMap_le _ _
    unfold limitChats at h1
    by_cases hc : cap < (selectChats chats analyzed).length
    · rw [if_pos hc] at h1
      simp [List.length_take] at h1
      omega
    · rw [if_neg hc] at h1
      omega
  · intro hc
    unfold deferredCount limitChats
    rw [if_pos hc]
    simp [List.length_take]
    omega
  · intro hc
    unfold deferredCount limitChats
    rw [if_neg (by omega)]
    omega

/-- Witness for C6: with the default cap 10 and 25 eligible snapshots, at
most 10 are scored and 15 are reported deferred. -/
theorem batch_cap_and_deferred_witness :
    (runBatch (fun _ => some ()) (List.replicate 25 (⟨"c", 2, "", 100⟩ : ChatItem))
        (fun _ => none) MAX_CHATS_PER_RUN).length ≤ 10 ∧
    deferredCount (List.replicate 25 (⟨"c", 2, "", 100⟩ : ChatItem))
        (fun _ => none) MAX_CHATS_PER_RUN = 15 := by
  have h := batch_cap_and_deferred (fun _ => some ())
    (List.replicate 25 (⟨"c", 2, "", 100⟩ : ChatItem)) (fun _ => none) MAX_CHATS_PER_RUN
  refine ⟨h.1, ?_⟩
  have h2 := h.2.1 (by decide)
  rw [h2]
  decide

/-- Membership through the insertion step of the stable sort. -/
theorem mem_insertByAvg {z x : String × Rat} {l : List (String × Rat)} :
    z ∈ insertByAvg x l ↔ z = x ∨ z ∈ l := by
  induction l with
  | nil => simp [insertByAvg]
  | cons y ys ih =>
    unfold insertByAvg
    split
    · simp only [List.mem_cons, ih]
      tauto
    · simp only [List.mem_cons]

/-- The insertion step preserves ascending order. -/
theorem pairwise_insertByAvg {x : String × Rat} {l : List (String × Rat)}
    (h : List.Pairwise (fun a b => a.2 ≤ b.2) l) :
    List.Pairwise (fun a b => a.2 ≤ b.2) (insertByAvg x l) := by
  induction l with
  | nil => simp [insertByAvg]
  | cons y ys ih =>
    rcases List.pairwise_cons.mp h with ⟨hy, hys⟩
    unfold insertByAvg
    split
    · refine List.pairwise_cons.mpr ⟨?_, ih hys⟩
      intro z hz
      rcases mem_insertByAvg.mp hz with rfl | hz
      · exact le_of_lt (by assumption)
      · exact hy z hz
    · refine List.pairwise_cons.mpr ⟨?_, h⟩
      intro z hz
      have hxy : x.2 ≤ y.2 := le_of_not_lt (by assumption)
      rcases List.mem_cons.mp hz with rfl | hz
      · exact hxy
      · exact le_trans hxy (hy z hz)

/-- Membership through the stable sort. -/
theorem mem_sortByAvg {z : String × Rat} {l : List (String × Rat)} :
    z ∈ sortByAvg l ↔ z ∈ l := by
  induction l with
  | nil => simp [sortByAvg]
  | cons y ys ih =>
    show z ∈ insertByAvg y (sortByAvg ys) ↔ _
    rw [mem_insertByAvg]
    simp [ih]

/-- The stable sort sorts ascending by average. -/
theorem pairwise_sortByAvg (l : List (String × Rat)) :
    List.Pairwise (fun a b => a.2 ≤ b.2) (sortByAvg l) := by
  induction l with
  | nil => simp [sortByAvg]
  | cons y ys ih => exact pairwise_insertByAvg ih

/-- Stability of the insertion step, per tied value `v`: the walk stops
at the first element not strictly below `x.2`, so `x` lands *before*
every element sharing its value and the relative order of the others is
untouched. -/
theorem filter_insertByAvg (x : String × Rat) (l : List (String × Rat)) (v : Rat) :
    (insertByAvg x l).filter (fun kv => kv.2 = v) =
      if x.2 = v then x :: l.filter (fun kv => kv.2 = v)
      else l.filter (fun kv => kv.2 = v) := by
  induction l with
  | nil =>
    by_cases hxv : x.2 = v <;> simp [insertByAvg, hxv]
  | cons y ys ih =>
    unfold insertByAvg
    split
    · rename_i hlt
      by_cases hxv : x.2 = v
      · have hyv : ¬ y.2 = v := by
          intro hyv
          rw [hyv] at hlt
          rw [hxv] at hlt
          exact lt_irrefl v hlt
        simp [List.filter_cons, hyv, ih, hxv]
      · simp [List.filter_cons, ih, hxv]
    · by_cases hxv : x.2 = v <;> simp [List.filter_cons, hxv]

/-- Stability of the sort, per tied value `v`: entries with equal
average keep exactly their input order. -/
theorem filter_sortByAvg (l : List (String × Rat)) (v : Rat) :
    (sortByAvg l).filter (fun kv => kv.2 = v) = l.filter (fun kv => kv.2 = v) := by
  induction l with
  | nil => rfl
  | cons x xs ih =>
    show (insertByAvg x (sortByAvg xs)).filter _ = _
    rw [filter_insertByAvg, ih]
    by_cases hxv : x.2 = v <;> simp [List.filter_cons, hxv]

/-- **C7 (counterexample)**: for the score list `[3.04]` the claimed
return value is the mean `3.04`, but `find_weakest_skills` reports the
average rounded to one decimal, `3.0`. -/
theorem weakest_skills_not_exact_mean :
    find_weakest_skills (calculate_skill_averages
        [("closing_score", [Rat.divInt 304 100])]) 1 = [("closing_score", 3)] ∧
    ([Rat.divInt 304 100] : List Rat).sum /
        ((([Rat.divInt 304 100] : List Rat).length : Nat) : Rat) = Rat.divInt 304 100 ∧
    (3 : Rat) ≠ Rat.divInt 304 100 := by
  refine ⟨?_, ?_, by decide⟩
  · norm_num [find_weakest_skills, calculate_skill_averages, round1, sortByAvg, insertByAvg]
    decide
  · norm_num

/-- Anything returned by `find_weakest_skills` is a strictly positive
input average. -/
theorem mem_find_weakest {averages : List (String × Rat)} {n : Nat} {p : String × Rat}
    (hp : p ∈ find_weakest_skills averages n) : 0 < p.2 ∧ p ∈ averages := by
  have h1 : p ∈ sortByAvg (averages.filter fun kv => 0 < kv.2) :=
    List.mem_of_mem_take hp
  have h2 := mem_sortByAvg.mp h1
  have h3 := List.mem_filter.mp h2
  exact ⟨by simpa using h3.2, h3.1⟩

/-- **C7 (amended)**: `find_weakest_skills ∘ calculate_skill_averages`
ranks by the *rounded* (one decimal, half-even) mean: the spec's example
evaluates as stated; the output has at most `top_n` entries, is sorted
ascending, and every returned pair is an input average that is strictly
positive; every returned skill comes from a non-empty score list (skills
without data are excluded); ties — common once means are rounded, as in
the `[3.04]`/`[2.96]` example — retain the input iteration order: for
every tied value, the output's entries with that value are an initial
segment of the input's entries with that value, in input order (the
stable sort, with truncation only ever dropping a suffix). -/
theorem weakest_skills_spec :
    (find_weakest_skills (calculate_skill_averages
        [("closing_score", [2, 4]), ("greeting_score", [8, 9]), ("presentation_score", [])]) 2 =
      [("closing_score", 3), ("greeting_score", Rat.divInt 17 2)]) ∧
    (∀ (averages : List (String × Rat)) (n : Nat),
      (find_weakest_skills averages n).length ≤ n ∧
      List.Pairwise (fun a b => a.2 ≤ b.2) (find_weakest_skills averages n) ∧
      (∀ p ∈ find_weakest_skills averages n, 0 < p.2 ∧ p ∈ averages)) ∧
    (∀ (skills : List (String × List Rat)) (n : Nat) (p : String × Rat),
      p ∈ find_weakest_skills (calculate_skill_averages skills) n →
      ∃ kv ∈ skills, kv.1 = p.1 ∧ kv.2 ≠ []) ∧
    (find_weakest_skills (calculate_skill_averages
        [("greeting_score", [Rat.divInt 304 100]), ("needs_score", [Rat.divInt 296 100])]) 2 =
      [("greeting_score", 3), ("needs_score", 3)]) ∧
    (∀ (averages : List (String × Rat)) (n : Nat) (v : Rat),
      (find_weakest_skills averages n).filter (fun kv => kv.2 = v) <+:
        (averages.filter fun kv => 0 < kv.2).filter (fun kv => kv.2 = v)) := by
  have hmem : ∀ (averages : List (String × Rat)) (n : Nat) (p : String × Rat),
      p ∈ find_weakest_skills averages n → 0 < p.2 ∧ p ∈ averages :=
    fun _ _ _ hp => mem_find_weakest hp
  refine ⟨?_, ?_, ?_, ?_, ?_⟩
  · norm_num [find_weakest_skills, calculate_skill_averages, round1, sortByAvg, insertByAvg]
    decide
  · intro averages n
    refine ⟨?_, ?_, hmem averages n⟩
    · simp [find_weakest_skills]
    · exact (pairwise_sortByAvg _).sublist (List.take_sublist _ _)
  · intro skills n p hp
    obtain ⟨hpos, hmem2⟩ := hmem _ n p hp
    obtain ⟨kv, hkv, hkveq⟩ := List.mem_map.mp hmem2
    by_cases he : kv.2.isEmpty
    · exfalso
      rw [if_pos he] at hkveq
      rw [← hkveq] at hpos
      exact lt_irrefl _ hpos
    · refine ⟨kv, hkv, ?_, by simpa using he⟩
      rw [if_neg he] at hkveq
      rw [← hkveq]
  · norm_num [find_weakest_skills, calculate_skill_averages, round1, sortByAvg, insertByAvg]
    decide
  · intro averages n v
    unfold find_weakest_skills
    rw [← filter_sortByAvg (averages.filter fun kv => 0 < kv.2) v]
    exact (List.take_prefix n _).filter _

/-- Witness for C7: a singleton positive average passes through with all
guarantees, and a concrete two-way tie keeps its input order as a prefix
of the tied input entries. -/
theorem weakest_skills_spec_witness :
    (find_weakest_skills [("needs_score", (1 : Rat))] 3).length ≤ 3 ∧
    (0 < (1 : Rat) ∧ ("needs_score", (1 : Rat)) ∈ [("needs_score", (1 : Rat))]) ∧
    (find_weakest_skills [("a", (1 : Rat)), ("b", (1 : Rat))] 1).filter
        (fun kv => kv.2 = 1) <+:
      (([("a", (1 : Rat)), ("b", (1 : Rat))].filter fun kv => 0 < kv.2).filter
        (fun kv => kv.2 = 1)) := by
  have h := weakest_skills_spec.2.1 [("needs_score", (1 : Rat))] 3
  exact ⟨h.1, h.2.2 ("needs_score", 1) (by decide),
    weakest_skills_spec.2.2.2.2 [("a", (1 : Rat)), ("b", (1 : Rat))] 1 1⟩


/-- A one-record sheet for an agent whose single skill cell holds the
given value. -/
def oneScoreRow (v : Cell) : SheetRow :=
  ⟨"m1", fun k => if k = "greeting_score" then some v else none⟩

/-- **C8 (counterexample)**: a record whose `greeting_score` cell reads
`"5,2"` (decimal comma).  In the `send_weekly_report.py`/`learning_bot.py`
aggregator the value is *not* normalized: `float("5,2")` raises, the
score is skipped, and the agent ends with no `greeting_score` list at
all — not the `5.2` the claim requires.  The `send_reports.py` variant
does append `5.2` (second conjunct), so the two variants disagree on the
same record. -/
theorem comma_score_dropped_by_weekly :
    aggregate_by_manager scoreFloatWeekly [oneScoreRow (.str "5,2")] =
      [("m1", ⟨1, []⟩)] ∧
    aggregate_by_manager scoreFloatReports [oneScoreRow (.str "5,2")] =
      [("m1", ⟨1, [("greeting_score", [Rat.divInt 26 5])]⟩)] := by
  constructor <;> decide

/-- **C8 (amended)**: in the `send_reports.py` aggregator the
decimal-comma and decimal-point spellings of a score are normalized to
the same float and appended; the `send_weekly_report.py` and
`learning_bot.py` aggregators append decimal-point scores but silently
skip decimal-comma ones; and in every variant a record none of whose
truthy skill cells converts to a number changes nothing — non-numeric
values are skipped without failing the aggregation. -/
theorem comma_scores_by_variant :
    (aggregate_by_manager scoreFloatReports [oneScoreRow (.str "5,2")] =
      [("m1", ⟨1, [("greeting_score", [Rat.divInt 26 5])]⟩)]) ∧
    (aggregate_by_manager scoreFloatReports [oneScoreRow (.str "5.2")] =
      [("m1", ⟨1, [("greeting_score", [Rat.divInt 26 5])]⟩)]) ∧
    (aggregate_by_manager scoreFloatWeekly [oneScoreRow (.str "5.2")] =
      [("m1", ⟨1, [("greeting_score", [Rat.divInt 26 5])]⟩)]) ∧
    (aggregate_by_manager scoreFloatWeekly [oneScoreRow (.str "5,2")] =
      [("m1", ⟨1, []⟩)]) ∧
    (∀ (score1 : Cell → Option Rat) (row : String → Option Cell)
        (sk : List (String × List Rat)),
      (∀ k ∈ SKILL_NAMES, cellTruthy ((row k).getD (.num 0)) = true →
        score1 ((row k).getD (.num 0)) = none) →
      addRowScores score1 sk row = sk) := by
  refine ⟨by decide, by decide, by decide, by decide, ?_⟩
  intro score1 row sk h
  have aux : ∀ (ks : List String) (acc : List (String × List Rat)),
      (∀ k ∈ ks, cellTruthy ((row k).getD (.num 0)) = true →
        score1 ((row k).getD (.num 0)) = none) →
      ks.foldl (addOneScore score1 row) acc = acc := by
    intro ks
    induction ks with
    | nil => intro acc _; rfl
    | cons k ks ih =>
      intro acc hks
      have hstep : addOneScore score1 row acc k = acc := by
        unfold addOneScore
        by_cases ht : cellTruthy ((row k).getD (.num 0)) = true
        · rw [if_pos ht, hks k (List.mem_cons_self k ks) ht]
        · rw [if_neg ht]
      rw [List.foldl_cons, hstep]
      exact ih acc (fun k' hk' => hks k' (List.mem_cons_of_mem k hk'))
  exact aux SKILL_NAMES sk h

/-- Witness for C8: a row of unparsable text scores leaves the skill
lists untouched. -/
theorem comma_scores_by_variant_witness :
    addRowScores scoreFloatWeekly [("closing_score", [(7 : Rat)])]
      (fun _ => some (.str "n/a")) = [("closing_score", [(7 : Rat)])] :=
  comma_scores_by_variant.2.2.2.2 scoreFloatWeekly (fun _ => some (.str "n/a"))
    [("closing_score", [(7 : Rat)])] (fun _ _ _ => rfl)

/-- `appendSkill` under a different key never creates the key `k`. -/
theorem appendSkill_keeps_absent {sk : List (String × List Rat)} {k k' : String} {q : Rat}
    (hne : k' ≠ k) (h : ∀ kv ∈ sk, kv.1 ≠ k) :
    ∀ kv ∈ appendSkill sk k' q, kv.1 ≠ k := by
  intro kv hkv
  unfold appendSkill at hkv
  split at hkv
  · obtain ⟨kv0, hkv0, heq⟩ := List.mem_map.mp hkv
    by_cases hk : kv0.1 = k'
    · rw [if_pos hk] at heq
      rw [← heq]
      simpa [hk] using hne
    · rw [if_neg hk] at heq
      rw [← heq]
      exact h kv0 hkv0
  · rcases List.mem_append.mp hkv with hold | hnew
    · exact h kv hold
    · simp at hnew
      subst hnew
      exact hne

/-- A skill whose cell is the number `0` in a row is never given an
entry by that row's score loop. -/
theorem addRowScores_keeps_absent (score1 : Cell → Option Rat) (row : String → Option Cell)
    (k : String) (hzero : (row k).getD (.num 0) = .num 0) :
    ∀ (ks : List String) (sk : List (String × List Rat)),
      (∀ kv ∈ sk, kv.1 ≠ k) → ∀ kv ∈ ks.foldl (addOneScore score1 row) sk, kv.1 ≠ k := by
  intro ks
  induction ks with
  | nil => intro sk h kv hkv; exact h kv hkv
  | cons k' ks ih =>
    intro sk h
    rw [List.foldl_cons]
    refine ih (addOneScore score1 row sk k') ?_
    intro kv hkv
    by_cases hkk : k' = k
    · subst hkk
      simp only [addOneScore, hzero, cellTruthy] at hkv
      simp at hkv
      exact h kv hkv
    · simp only [addOneScore] at hkv
      split at hkv
      · split at hkv
        · exact appendSkill_keeps_absent hkk h kv hkv
        · exact h kv hkv
      · exact h kv hkv

/-- **C10**: a skill cell equal to `0` is never appended to the agent's
list (the truthiness test drops it before conversion, in every variant);
everything `find_weakest_skills` returns has a strictly positive
average; and consequently a skill whose cell is `0` in every aggregated
record gets no entry at all and can never appear in the weakest-skills
output — indistinguishable from a skill with no data. -/
theorem zero_scores_invisible :
    (∀ (score1 : Cell → Option Rat) (row : String → Option Cell)
        (sk : List (String × List Rat)),
      (∀ k ∈ SKILL_NAMES, (row k).getD (.num 0) = .num 0) →
      addRowScores score1 sk row = sk) ∧
    (∀ (averages : List (String × Rat)) (n : Nat) (p : String × Rat),
      p ∈ find_weakest_skills averages n → 0 < p.2) ∧
    (∀ (score1 : Cell → Option Rat) (rows : List (String → Option Cell))
        (k : String) (n : Nat) (v : Rat),
      (∀ row ∈ rows, (row k).getD (.num 0) = .num 0) →
      (k, v) ∉ find_weakest_skills
        (calculate_skill_averages (collectSkills score1 rows)) n) := by
  refine ⟨?_, ?_, ?_⟩
  · intro score1 row sk h
    have aux : ∀ (ks : List String) (acc : List (String × List Rat)),
        (∀ k ∈ ks, (row k).getD (.num 0) = .num 0) →
        ks.foldl (addOneScore score1 row) acc = acc := by
      intro ks
      induction ks with
      | nil => intro acc _; rfl
      | cons k ks ih =>
        intro acc hks
        have hstep : addOneScore score1 row acc k = acc := by
          unfold addOneScore
          rw [hks k (List.mem_cons_self k ks)]
          rfl
        rw [List.foldl_cons, hstep]
        exact ih acc (fun k' hk' => hks k' (List.mem_cons_of_mem k hk'))
    exact aux SKILL_NAMES sk h
  · intro averages n p hp
    exact (mem_find_weakest hp).1
  · intro score1 rows k n v hzero hp
    have habsent : ∀ kv ∈ collectSkills score1 rows, kv.1 ≠ k := by
      have aux : ∀ (rs : List (String → Option Cell)) (sk : List (String × List Rat)),
          (∀ row ∈ rs, (row k).getD (.num 0) = .num 0) →
          (∀ kv ∈ sk, kv.1 ≠ k) →
          ∀ kv ∈ rs.foldl (fun sk row => addRowScores score1 sk row) sk, kv.1 ≠ k := by
        intro rs
        induction rs with
        | nil => intro sk _ h kv hkv; exact h kv hkv
        | cons row rs ih =>
          intro sk hz h
          rw [List.foldl_cons]
          refine ih _ (fun r hr => hz r (List.mem_cons_of_mem row hr)) ?_
          exact addRowScores_keeps_absent score1 row k
            (hz row (List.mem_cons_self row rs)) SKILL_NAMES sk h
      exact aux rows [] hzero (by intro kv hkv; exact absurd hkv (List.not_mem_nil kv))
    obtain ⟨_, hmem⟩ := mem_find_weakest hp
    obtain ⟨kv, hkv, hkveq⟩ := List.mem_map.mp hmem
    have : kv.1 = k := by
      by_cases he : kv.2.isEmpty
      · rw [if_pos he] at hkveq
        exact (Prod.mk.injEq _ _ _ _).mp hkveq |>.1
      · rw [if_neg he] at hkveq
        exact (Prod.mk.injEq _ _ _ _).mp hkveq |>.1
    exact habsent kv hkv this

/-- Witness for C10: one all-zero record leaves the skill table empty,
and the zero-scored skill cannot be ranked. -/
theorem zero_scores_invisible_witness :
    addRowScores scoreFloatWeekly [] (fun _ => some (.num 0)) = [] ∧
    ("greeting_score", (5 : Rat)) ∉ find_weakest_skills
      (calculate_skill_averages
        (collectSkills scoreFloatWeekly [fun _ => some (.num 0)])) 3 :=
  ⟨zero_scores_invisible.1 scoreFloatWeekly (fun _ => some (.num 0)) [] (fun _ _ => rfl),
   zero_scores_invisible.2.2 scoreFloatWeekly [fun _ => some (.num 0)]
     "greeting_score" 3 5 (fun row hr => by rw [List.mem_singleton.mp hr]; rfl)⟩


/-- A record produced by `processOne` snapshots that conversation's
count and status. -/
theorem processOne_eq_some {score : ChatItem → Option Unit} {c : ChatItem} {r : Record}
    (h : processOne score c = some r) : r = chatItemRecord c := by
  unfold processOne at h
  split at h
  · exact absurd h (by simp)
  · split at h
    · exact (Option.some.inj h).symm
    · exact absurd h (by simp)

/-- Everything the capped candidate list keeps is an input snapshot. -/
theorem mem_limit_select {chats : List ChatItem} {analyzed : String → Option PrevAnalysis}
    {cap : Nat} {c : ChatItem}
    (h : c ∈ limitChats (selectChats chats analyzed) cap) : c ∈ selectChats chats analyzed := by
  unfold limitChats at h
  split at h
  · exact List.mem_of_mem_take h
  · exact h

/-- Every record the batch writes snapshots one of the input
conversations. -/
theorem mem_runBatch {score : ChatItem → Option Unit} {chats : List ChatItem}
    {analyzed : String → Option PrevAnalysis} {cap : Nat} {r : Record}
    (h : r ∈ runBatch score chats analyzed cap) : ∃ c ∈ chats, r = chatItemRecord c := by
  obtain ⟨c, hc, hpc⟩ := List.mem_filterMap.mp h
  exact ⟨c, List.mem_of_mem_filter (mem_limit_select hc), processOne_eq_some hpc⟩

/-- **C9**: under the growth precondition — the latest prior record of
every input conversation counts no more messages than the current
snapshot (message logs only grow), and snapshots sharing a `chat_id`
share their message list — every record the batch appends carries a
message count at least that of the latest prior record, and records
appended for the same conversation in one run agree, so the per-chat
sequence of `message_count` values is non-decreasing. -/
theorem message_count_monotone (score : ChatItem → Option Unit) (chats : List ChatItem)
    (analyzed : String → Option PrevAnalysis) (cap : Nat)
    (hgrow : ∀ c ∈ chats, ∀ p, analyzed c.chat_id = some p →
      p.message_count ≤ c.message_count)
    (hshare : ∀ c ∈ chats, ∀ c' ∈ chats, c.chat_id = c'.chat_id →
      c.message_count = c'.message_count) :
    (∀ r ∈ runBatch score chats analyzed cap, ∀ p, analyzed r.chat_id = some p →
      p.message_count ≤ r.message_count) ∧
    (∀ r ∈ runBatch score chats analyzed cap, ∀ r' ∈ runBatch score chats analyzed cap,
      r.chat_id = r'.chat_id → r.message_count = r'.message_count) := by
  constructor
  · intro r hr p hp
    obtain ⟨c, hc, rfl⟩ := mem_runBatch hr
    exact hgrow c hc p hp
  · intro r hr r' hr' hid
    obtain ⟨c, hc, rfl⟩ := mem_runBatch hr
    obtain ⟨c', hc', rfl⟩ := mem_runBatch hr'
    exact hshare c hc c' hc' hid

/-- Witness for C9: a conversation previously analyzed at 3 messages and
now snapshotted at 5 yields a record whose count is at least 3. -/
theorem message_count_monotone_witness :
    (⟨3, ""⟩ : PrevAnalysis).message_count ≤
      (chatItemRecord ⟨"c1", 5, "paid", 100⟩).message_count :=
  (message_count_monotone (fun _ => some ()) [⟨"c1", 5, "paid", 100⟩]
      (fun id => if id = "c1" then some ⟨3, ""⟩ else none) MAX_CHATS_PER_RUN
      (fun c hc p hp => by
        rw [List.mem_singleton.mp hc] at hp ⊢
        obtain ⟨pm, ps⟩ := p
        simp [PrevAnalysis.mk.injEq] at hp
        show pm ≤ 5
        omega)
      (fun c hc c' hc' _ => by
        rw [List.mem_singleton.mp hc, List.mem_singleton.mp hc'])).1
    (chatItemRecord ⟨"c1", 5, "paid", 100⟩) (by decide) ⟨3, ""⟩ (by decide)

/-- `needs_reanalysis` reads the prior state only at its own id. -/
theorem needs_reanalysis_congr {id : String} {cnt : Nat} {st : String}
    {a a' : String → Option PrevAnalysis} (h : a id = a' id) :
    needs_reanalysis id cnt st a = needs_reanalysis id cnt st a' := by
  unfold needs_reanalysis
  rw [h]

/-- Rebuilding the analyzed-chats dict when no appended row carries the
id leaves the prior entry. -/
theorem foldl_records_no_match (records : List Record) (id : String)
    (init : Option PrevAnalysis) (h : ∀ r ∈ records, r.chat_id ≠ id) :
    records.foldl
      (fun acc r => if r.chat_id = id then some ⟨r.message_count, r.chat_status⟩ else acc)
      init = init := by
  induction records generalizing init with
  | nil => rfl
  | cons r rs ih =>
    rw [List.foldl_cons, if_neg (h r (List.mem_cons_self r rs))]
    exact ih init (fun r' hr' => h r' (List.mem_cons_of_mem r hr'))

/-- Rebuilding the analyzed-chats dict when every appended row carrying
the id holds the same state ends at that state. -/
theorem foldl_records_unique (records : List Record) (id : String) (pa : PrevAnalysis)
    (init : Option PrevAnalysis)
    (hall : ∀ r ∈ records, r.chat_id = id →
      (⟨r.message_count, r.chat_status⟩ : PrevAnalysis) = pa)
    (hex : ∃ r ∈ records, r.chat_id = id) :
    records.foldl
      (fun acc r => if r.chat_id = id then some ⟨r.message_count, r.chat_status⟩ else acc)
      init = some pa := by
  induction records generalizing init with
  | nil =>
    obtain ⟨r, hr, _⟩ := hex
    exact absurd hr (List.not_mem_nil r)
  | cons r rs ih =>
    rw [List.foldl_cons]
    by_cases hid : r.chat_id = id
    · rw [if_pos hid]
      by_cases hex2 : ∃ r' ∈ rs, r'.chat_id = id
      · exact ih _ (fun r' hr' => hall r' (List.mem_cons_of_mem r hr')) hex2
      · have hnone : ∀ r' ∈ rs, r'.chat_id ≠ id := by
          intro r' hr' hc
          exact hex2 ⟨r', hr', hc⟩
        rw [foldl_records_no_match rs id _ hnone, hall r (List.mem_cons_self r rs) hid]
    · rw [if_neg hid]
      have hex2 : ∃ r' ∈ rs, r'.chat_id = id := by
        obtain ⟨r', hr', hc⟩ := hex
        rcases List.mem_cons.mp hr' with rfl | h2
        · exact absurd hc hid
        · exact ⟨r', h2, hc⟩
      exact ih init (fun r' hr' => hall r' (List.mem_cons_of_mem r hr')) hex2

/-- **C1 (counterexample)**: eleven never-analyzed conversations with an
unchanged store between runs.  The first run caps at
`MAX_CHATS_PER_RUN = 10`, so the eleventh conversation is deferred and
the second run — with no new messages and no status change — still
writes a record: the second batch is *not* empty. -/
theorem second_run_not_empty :
    runBatch (fun _ => some ())
      ((List.range 11).map (fun i => ⟨"c" ++ toString i, 2, "done", 100⟩))
      (loadAnalyzed (fun _ => none)
        (runBatch (fun _ => some ())
          ((List.range 11).map (fun i => ⟨"c" ++ toString i, 2, "done", 100⟩))
          (fun _ => none) MAX_CHATS_PER_RUN))
      MAX_CHATS_PER_RUN ≠ [] := by
  decide

/-- **C1 (amended)**: when the first run's eligible candidates fit under
the cap (no deferral) and conversation ids are distinct (one snapshot
row per conversation), re-running the batch on an unchanged store — same
snapshots, same deterministic scoring outcome per conversation — writes
zero new records: every scored conversation re-compares equal on count
and status, and every skipped or failed conversation fails identically
again without writing. -/
theorem batch_idempotent (score : ChatItem → Option Unit) (chats : List ChatItem)
    (analyzed : String → Option PrevAnalysis) (cap : Nat)
    (hnodup : (chats.map (fun c => c.chat_id)).Nodup)
    (hcap : (selectChats chats analyzed).length ≤ cap) :
    runBatch score chats
      (loadAnalyzed analyzed (runBatch score chats analyzed cap)) cap = [] := by
  have hlimit : limitChats (selectChats chats analyzed) cap = selectChats chats analyzed := by
    unfold limitChats
    rw [if_neg (not_lt.mpr hcap)]
  -- Step 1: a record in the first batch carrying the id of `c ∈ chats`
  -- is exactly `c`'s record, and `c` was selected and scored.
  have hstep1 : ∀ c ∈ chats, ∀ r ∈ runBatch score chats analyzed cap,
      r.chat_id = c.chat_id →
      r = chatItemRecord c ∧ c ∈ selectChats chats analyzed ∧
        processOne score c = some (chatItemRecord c) := by
    intro c hc r hr hid
    obtain ⟨c', hc', hpc'⟩ := List.mem_filterMap.mp hr
    have hc'chats : c' ∈ chats := List.mem_of_mem_filter (mem_limit_select hc')
    have hrc' : r = chatItemRecord c' := processOne_eq_some hpc'
    have : c' = c := by
      have hcc : c'.chat_id = c.chat_id := by
        rw [← hid, hrc']
        rfl
      exact List.inj_on_of_nodup_map hnodup hc'chats hc hcc
    subst this
    exact ⟨hrc', mem_limit_select hc', by rw [← hrc']; exact hpc'⟩
  -- Step 2: after reload, every conversation either re-compares equal
  -- (scored last run) or sees its old entry (not scored last run).
  have hstep2 : ∀ c ∈ chats,
      (needs_reanalysis c.chat_id c.message_count c.chat_status
        (loadAnalyzed analyzed (runBatch score chats analyzed cap))).1 = true →
      processOne score c = none := by
    intro c hc hneed
    by_cases hA : c ∈ selectChats chats analyzed ∧
        processOne score c = some (chatItemRecord c)
    · exfalso
      have hload : loadAnalyzed analyzed (runBatch score chats analyzed cap) c.chat_id =
          some ⟨c.message_count, c.chat_status⟩ := by
        unfold loadAnalyzed
        apply foldl_records_unique
        · intro r hr hid
          rw [(hstep1 c hc r hr hid).1]
          rfl
        · refine ⟨chatItemRecord c, ?_, rfl⟩
          unfold runBatch
          rw [hlimit]
          exact List.mem_filterMap.mpr ⟨c, hA.1, hA.2⟩
      rw [needs_reanalysis, hload] at hneed
      simp at hneed
    · have hnomatch : ∀ r ∈ runBatch score chats analyzed cap, r.chat_id ≠ c.chat_id := by
        intro r hr hid
        obtain ⟨hr1, hr2, hr3⟩ := hstep1 c hc r hr hid
        exact hA ⟨hr2, hr3⟩
      have hload : loadAnalyzed analyzed (runBatch score chats analyzed cap) c.chat_id =
          analyzed c.chat_id := by
        unfold loadAnalyzed
        exact foldl_records_no_match _ _ _ hnomatch
      rw [needs_reanalysis_congr hload] at hneed
      by_cases hsel : c ∈ selectChats chats analyzed
      · cases hproc : processOne score c with
        | none => rfl
        | some r =>
          exact absurd ⟨hsel, by rw [← processOne_eq_some hproc]; exact hproc⟩ hA
      · exfalso
        apply hsel
        exact List.mem_filter.mpr ⟨hc, hneed⟩
  -- Step 3: hence nothing in the second candidate list scores.
  apply List.filterMap_eq_nil_iff.mpr
  intro c hc
  have hsel' := mem_limit_select hc
  have hcchats : c ∈ chats := List.mem_of_mem_filter hsel'
  have hneed := (List.mem_filter.mp hsel').2
  exact hstep2 c hcchats hneed

/-- Witness for C1: two distinct conversations — one analyzable, one
whose dialog is under the 50-character threshold — produce an empty
second batch on an unchanged store. -/
theorem batch_idempotent_witness :
    runBatch (fun _ => some ()) [⟨"c1", 5, "paid", 100⟩, ⟨"c2", 2, "", 30⟩]
      (loadAnalyzed (fun _ => none)
        (runBatch (fun _ => some ()) [⟨"c1", 5, "paid", 100⟩, ⟨"c2", 2, "", 30⟩]
          (fun _ => none) MAX_CHATS_PER_RUN))
      MAX_CHATS_PER_RUN = [] :=
  batch_idempotent (fun _ => some ()) [⟨"c1", 5, "paid", 100⟩, ⟨"c2", 2, "", 30⟩]
    (fun _ => none) MAX_CHATS_PER_RUN (by decide) (by decide)

end Academy
